import Mathlib

/-!
Shallow embedding of the avocado-price-prediction dashboard (`src/app.py`).

The program loads a CSV into a dataframe, resolves a handful of logical
column names case-insensitively, composes a boolean row mask from the
user's filter state (region membership, exact type match, date range),
and computes grouped aggregates plus a CSV export of the filtered view.

Cells are dynamically typed: strings, numbers, calendar dates (coerced by
the loader), or missing (NaN/NaT).  Dates are modelled as integers (day
ordinals); numbers as rationals.  The external pandas entry points
(`pd.to_datetime`, CSV value formatting and type inference) are passed in
as explicit function parameters.
-/

/-- A dynamically-typed dataframe cell: string, number, date, or missing
(NaN/NaT). -/
inductive Value where
  | str (s : String)
  | num (q : Rat)
  | date (d : Int)
  | missing
deriving DecidableEq

/-- A dataframe: ordered column headers and rows of cells, each row
positionally aligned with the headers. -/
structure DataFrame where
  cols : List String
  rows : List (List Value)
deriving DecidableEq

/-- ASCII lower-casing of one character (`str.lower()` on the ASCII
headers this program works with). -/
def lowerChar (c : Char) : Char :=
  if 'A' ≤ c ∧ c ≤ 'Z' then Char.ofNat (c.toNat + 32) else c

/-- `s.lower()`: ASCII lower-casing of a string. -/
def lowerStr (s : String) : String := String.mk (s.data.map lowerChar)

/-- ASCII whitespace, as stripped by `str.strip()`. -/
def isWs (c : Char) : Bool := c = ' ' ∨ c = '\t' ∨ c = '\x0a' ∨ c = '\x0d'

/-- Strip leading and trailing whitespace from a character list. -/
def trimChars (l : List Char) : List Char :=
  ((l.dropWhile isWs).reverse.dropWhile isWs).reverse

/-- `c.strip()`: strip leading and trailing whitespace from a string. -/
def trimStr (s : String) : String := String.mk (trimChars s.data)

/-- Cell of `row` in column `c`, given headers `cols` (missing when the
column is absent or the row is short). -/
def getCell (cols : List String) (row : List Value) (c : String) : Value :=
  match cols.indexOf? c with
  | some i => row.getD i .missing
  | none => .missing

/-- `find_col(df, name)` from `src/app.py`: first header matching `name`
case-insensitively, else `None`. -/
def find_col (df : DataFrame) (name : String) : Option String :=
  df.cols.find? (fun c => lowerStr c == lowerStr name)

/-- Python truthiness of a cell value (`if sel_type and ...`): the empty
string and zero are falsy; NaN is truthy in Python. -/
def Value.truthy : Value → Bool
  | .str s => s ≠ ""
  | .num q => q ≠ 0
  | .date _ => true
  | .missing => true

/-- Pandas elementwise equality (`df[col] == v`): missing compares unequal
to everything, including itself. -/
def peq (a b : Value) : Bool :=
  match a, b with
  | .missing, _ => false
  | _, .missing => false
  | a, b => a = b

/-- Pandas datetime `>=` against a bound: NaT (and any non-date) compares
false. -/
def dateGe : Value → Int → Bool
  | .date d, b => b ≤ d
  | _, _ => false

/-- Pandas datetime `<=` against a bound: NaT (and any non-date) compares
false. -/
def dateLe : Value → Int → Bool
  | .date d, b => d ≤ b
  | _, _ => false

/-- `load_data` from `src/app.py`, after `pd.read_csv` has produced a raw
frame: trim every header, locate the first header equal to `"date"`
case-insensitively, and coerce that column with `pd.to_datetime(...,
errors="coerce")` — modelled by `parse`, unparseable cells becoming
missing. -/
def load_data (parse : Value → Option Int) (raw : DataFrame) : DataFrame :=
  let cols := raw.cols.map (fun c => trimStr c)
  match cols.findIdx? (fun c => lowerStr c == "date") with
  | none => ⟨cols, raw.rows⟩
  | some i =>
      ⟨cols, raw.rows.map (fun row =>
        row.mapIdx (fun j v =>
          if j = i then
            match parse v with
            | some d => .date d
            | none => .missing
          else v))⟩

/-- The user's filter state: selected regions (`None` when the region
control is absent), selected type (sentinel `"All"`), and the date-range
pair (`None` when the date control is absent). -/
structure FilterState where
  sel_regions : Option (List Value)
  sel_type : Value
  dr : Option (Value × Value)
deriving DecidableEq

/-- The row mask of `src/app.py` lines 82–94, built sequentially exactly
as in the source: start from `True`, conjoin the region membership test
when `sel_regions` is truthy (non-`None`, non-empty) and the region column
resolved, conjoin the type equality test when `sel_type` is truthy and not
the sentinel `"All"` and the type column resolved, and conjoin the
date-range test when `dr` and the date column are present and both bounds
parse (`pd.to_datetime` inside `try`, modelled by `parseB`; a parse
failure leaves the mask unchanged). -/
def rowPred (parseB : Value → Option Int) (cols : List String)
    (region_col type_col date_col : Option String)
    (fs : FilterState) (row : List Value) : Bool :=
  let filt := true
  let filt :=
    match fs.sel_regions, region_col with
    | some rs, some rc =>
        if rs ≠ [] then filt && decide (getCell cols row rc ∈ rs) else filt
    | _, _ => filt
  let filt :=
    match type_col with
    | some tc =>
        if fs.sel_type.truthy ∧ fs.sel_type ≠ .str "All" then
          filt && peq (getCell cols row tc) fs.sel_type
        else filt
    | none => filt
  let filt :=
    match fs.dr, date_col with
    | some (s, e), some dc =>
        match parseB s, parseB e with
        | some si, some ei =>
            filt && dateGe (getCell cols row dc) si
                 && dateLe (getCell cols row dc) ei
        | _, _ => filt
    | _, _ => filt
  filt

/-- `filtered = df[filt].copy()`: the dataset restricted to the rows
satisfying the mask, columns unchanged. -/
def applyFilters (parseB : Value → Option Int) (df : DataFrame)
    (region_col type_col date_col : Option String)
    (fs : FilterState) : DataFrame :=
  ⟨df.cols, df.rows.filter (rowPred parseB df.cols region_col type_col date_col fs)⟩

/-- The region predicate padded to a total predicate: always-true when the
region column is unresolved or the selection is `None` or empty. -/
def regionPad (cols : List String) (region_col : Option String)
    (fs : FilterState) (row : List Value) : Bool :=
  match fs.sel_regions, region_col with
  | some rs, some rc =>
      if rs ≠ [] then decide (getCell cols row rc ∈ rs) else true
  | _, _ => true

/-- The type predicate padded to a total predicate: always-true when the
type column is unresolved or the selection is falsy or the sentinel
`"All"`. -/
def typePad (cols : List String) (type_col : Option String)
    (fs : FilterState) (row : List Value) : Bool :=
  match type_col with
  | some tc =>
      if fs.sel_type.truthy ∧ fs.sel_type ≠ .str "All" then
        peq (getCell cols row tc) fs.sel_type
      else true
  | none => true

/-- The date predicate padded to a total predicate: always-true when the
date column is unresolved, the range is `None`, or either bound fails to
parse. -/
def datePad (parseB : Value → Option Int) (cols : List String)
    (date_col : Option String) (fs : FilterState) (row : List Value) : Bool :=
  match fs.dr, date_col with
  | some (s, e), some dc =>
      match parseB s, parseB e with
      | some si, some ei =>
          dateGe (getCell cols row dc) si && dateLe (getCell cols row dc) ei
      | _, _ => true
  | _, _ => true

/-- No predicate is applicable: region skipped, type skipped, date
skipped. -/
def noPredApplicable (parseB : Value → Option Int)
    (region_col type_col date_col : Option String) (fs : FilterState) : Prop :=
  (fs.sel_regions = none ∨ fs.sel_regions = some [] ∨ region_col = none) ∧
  (type_col = none ∨ ¬(fs.sel_type.truthy = true ∧ fs.sel_type ≠ .str "All")) ∧
  (fs.dr = none ∨ date_col = none ∨
    ∃ s e, fs.dr = some (s, e) ∧ (parseB s = none ∨ parseB e = none))

/-- `ts.dropna(subset=cs)`: keep rows where none of the listed columns is
missing. -/
def notNa (cols : List String) (cs : List String) (row : List Value) : Bool :=
  cs.all (fun c => getCell cols row c ≠ .missing)

/-- `df.dropna(subset=cs)` as a dataframe. -/
def dropna (df : DataFrame) (cs : List String) : DataFrame :=
  ⟨df.cols, df.rows.filter (notNa df.cols cs)⟩

/-- The date values occurring in column `c` (non-date cells contribute
nothing; after the loader's coercion the column holds only dates and
missing). -/
def colDates (df : DataFrame) (c : String) : List Int :=
  df.rows.filterMap (fun r =>
    match getCell df.cols r c with
    | .date d => some d
    | _ => none)

/-- Numeric view of a cell, for aggregation. -/
def valueToRat : Value → Rat
  | .num q => q
  | .date d => (d : Rat)
  | .str _ => 0
  | .missing => 0

/-- The numeric values of column `valCol` over the rows of the group with
key `k` in column `keyCol` (pandas groupby: missing keys form no group;
pandas mean/sum skip missing values). -/
def groupVals (df : DataFrame) (keyCol : String) (k : Value) (valCol : String) :
    List Rat :=
  ((df.rows.filter (fun r => peq (getCell df.cols r keyCol) k)).map
      (fun r => getCell df.cols r valCol)).filterMap
    (fun v => match v with | .missing => none | v => some (valueToRat v))

/-- Mean of a list of rationals (`0` on the empty list, which never occurs
for a nonempty group). -/
def listMean (l : List Rat) : Rat := l.sum / l.length

/-- `filtered.dropna(subset=[date_col, avg_price_col]).groupby(date_col)
[avg_price_col].mean()` from `src/app.py` line 123–126: drop rows missing
either value, group by exact date, mean of average price per group, keys
ascending (pandas groupby sorts keys).  Empty when either column is
unresolved (the chart is skipped). -/
def timeSeries (df : DataFrame) (dateC priceC : Option String) : List (Int × Rat) :=
  match dateC, priceC with
  | some dc, some pc =>
      let ts := dropna df [dc, pc]
      ((colDates ts dc).dedup.insertionSort (· ≤ ·)).map
        (fun d => (d, listMean (groupVals ts dc (.date d) pc)))
  | _, _ => []

/-- The distinct non-missing key values of column `c`, i.e. the groupby
groups (pandas drops missing keys). -/
def groupKeys (df : DataFrame) (c : String) : List Value :=
  ((df.rows.map (fun r => getCell df.cols r c)).filter (fun v => v ≠ .missing)).dedup

/-- Descending-by-summed-volume order on (region, volume) pairs. -/
def volDesc (a b : Value × Rat) : Prop := b.2 ≤ a.2

instance : DecidableRel volDesc := fun a b => inferInstanceAs (Decidable (b.2 ≤ a.2))

instance : IsTotal (Value × Rat) volDesc := ⟨fun a b => le_total b.2 a.2⟩

instance : IsTrans (Value × Rat) volDesc := ⟨fun _ _ _ h1 h2 => le_trans h2 h1⟩

/-- `filtered.groupby(region_col)[total_vol_col].sum().reset_index()
.sort_values(total_vol_col, ascending=False)` followed by `.head(20)` from
`src/app.py` lines 133–135: group by region, sum volume per group, sort
descending by summed volume, keep the top 20.  Empty when either column is
unresolved (the chart is skipped). -/
def regionVolume (df : DataFrame) (regionC volC : Option String) :
    List (Value × Rat) :=
  match regionC, volC with
  | some rc, some vc =>
      (((groupKeys df rc).map (fun k => (k, (groupVals df rc k vc).sum))).insertionSort
        volDesc).take 20
  | _, _ => []

/-- One CSV line: cells joined by commas. -/
def csvLine (cells : List (List Char)) : List Char := List.intercalate [','] cells

/-- `to_csv_bytes` from `src/app.py` lines 148–151 (`df.to_csv(buf,
index=False)`): header line then one line per row, newline-terminated.
Pandas' per-value text formatting is external and passed in as `render`. -/
def to_csv_bytes (render : Value → List Char) (df : DataFrame) : List Char :=
  List.intercalate ['\x0a']
      (csvLine (df.cols.map String.toList)
        :: df.rows.map (fun r => csvLine (r.map render))) ++ ['\x0a']

/-- Split a character list on a separator; always returns at least one
piece. -/
def splitOnChar (c : Char) : List Char → List (List Char)
  | [] => [[]]
  | x :: xs =>
      match splitOnChar c xs with
      | [] => [[]]
      | h :: t => if x = c then [] :: h :: t else (x :: h) :: t

/-- `pd.read_csv` on CSV text: split into lines (dropping the final empty
line left by the terminating newline), first line is the header, remaining
lines are rows; pandas' per-cell type inference is external and passed in
as `infer`. -/
def read_csv (infer : List Char → Value) (s : List Char) : DataFrame :=
  let lines := splitOnChar '\x0a' s
  let lines := if lines.getLast? = some [] then lines.dropLast else lines
  match lines with
  | [] => ⟨[], []⟩
  | h :: rest =>
      ⟨(splitOnChar ',' h).map (fun cs => String.mk cs),
       rest.map (fun line => (splitOnChar ',' line).map infer)⟩

/-- Date-ordinal parser used to instantiate the external `pd.to_datetime`
in concrete evaluations: a date parses to itself, everything else is
unparseable. -/
def dParse : Value → Option Int
  | .date d => some d
  | _ => none

/-- A tiny concrete date parser for evaluating the loader on one input:
only the cell text `"d1"` parses (to day 7). -/
def wParse : Value → Option Int
  | .str "d1" => some 7
  | _ => none

/-- Concrete three-row frame for evaluating the time-series aggregate:
two dated rows and one with a missing date. -/
def aggDf : DataFrame :=
  ⟨["Date", "AveragePrice"],
   [[.date 2, .num 3], [.date 1, .num 1], [.missing, .num 9]]⟩

/-- Concrete three-row frame for evaluating the region-volume aggregate:
two rows of one region and one row with a missing region. -/
def volDf : DataFrame :=
  ⟨["region", "Total Volume"],
   [[.str "West", .num 10], [.str "West", .num 30], [.missing, .num 5]]⟩

/-- Decimal digit value of a character, if it is one. -/
def digitVal (c : Char) : Option Nat :=
  if '0' ≤ c ∧ c ≤ '9' then some (c.toNat - '0'.toNat) else none

/-- Parse a nonempty run of decimal digits. -/
def natDigitsAux : List Char → Nat → Option Nat
  | [], acc => some acc
  | c :: cs, acc =>
      match digitVal c with
      | some d => natDigitsAux cs (acc * 10 + d)
      | none => none

/-- Parse an optionally-signed decimal integer. -/
def intParse : List Char → Option Int
  | [] => none
  | '-' :: cs =>
      if cs = [] then none else (natDigitsAux cs 0).map (fun n => -(n : Int))
  | cs => (natDigitsAux cs 0).map (fun n => (n : Int))

/-- Concrete CSV cell formatter for evaluating the round trip: dates print
as decimal day ordinals, numbers as their integer numerator, strings as
themselves, missing as the empty cell. -/
def wRender : Value → List Char
  | .str s => s.data
  | .num q => (toString q.num).data
  | .date d => (toString d).data
  | .missing => []

/-- Concrete pandas-style type inference for evaluating the round trip:
empty cells are missing, integer-looking cells become numbers, everything
else stays text. -/
def wInfer (cs : List Char) : Value :=
  if cs = [] then .missing
  else
    match intParse cs with
    | some n => .num n
    | none => .str (String.mk cs)

/-- Concrete `pd.to_datetime` for evaluating the round trip: integral
numbers and dates parse, everything else is unparseable. -/
def wDateParse : Value → Option Int
  | .num n => if n.den = 1 then some n.num else none
  | .date d => some d
  | _ => none

/-- Concrete one-row frame with a date column and a text column, for
evaluating the CSV round trip. -/
def wDf : DataFrame := ⟨["Date", "region"], [[.date 3, .str "West"]]⟩

theorem rowPred_eq_pads (parseB : Value → Option Int) (cols : List String)
    (region_col type_col date_col : Option String)
    (fs : FilterState) (row : List Value) :
    rowPred parseB cols region_col type_col date_col fs row =
      (regionPad cols region_col fs row &&
       typePad cols type_col fs row &&
       datePad parseB cols date_col fs row) := by
  unfold rowPred regionPad typePad datePad
  dsimp only
  repeat' split
  all_goals simp_all [Bool.and_assoc, Bool.and_comm, Bool.and_left_comm]

/-- C5: `find_col` performs a case-insensitive exact match against the
current headers and returns the first matching actual column name in
header order, or `none` when no header matches. -/
theorem find_col_spec (df : DataFrame) (name : String) :
    (∀ c, find_col df name = some c →
        c ∈ df.cols ∧ lowerStr c = lowerStr name ∧
        ∃ pre post, df.cols = pre ++ c :: post ∧
          ∀ c' ∈ pre, lowerStr c' ≠ lowerStr name) ∧
    (find_col df name = none ↔ ∀ c ∈ df.cols, lowerStr c ≠ lowerStr name) := by
  constructor
  · intro c h
    obtain ⟨hp, pre, post, heq, hpre⟩ := List.find?_eq_some.mp h
    refine ⟨List.mem_of_find?_eq_some h, by simpa using hp, pre, post, heq, ?_⟩
    intro c' hc'
    simpa using hpre c' hc'
  · rw [find_col, List.find?_eq_none]
    simp

theorem find_col_spec_witness :
    "Date" ∈ (DataFrame.mk ["idx", "Date", "DATE"] []).cols ∧
      lowerStr "Date" = lowerStr "date" ∧
      ∃ pre post, (DataFrame.mk ["idx", "Date", "DATE"] []).cols = pre ++ "Date" :: post ∧
        ∀ c' ∈ pre, lowerStr c' ≠ lowerStr "date" :=
  (find_col_spec ⟨["idx", "Date", "DATE"], []⟩ "date").1 "Date" (by decide)

/-- C4: the FilteredView keeps all of the dataset's columns and its rows
form a sublist (subset, in order) of the dataset's rows; the dataset
itself is untouched. -/
theorem filteredView_invariant (parseB : Value → Option Int) (df : DataFrame)
    (region_col type_col date_col : Option String) (fs : FilterState) :
    (applyFilters parseB df region_col type_col date_col fs).cols = df.cols ∧
    (applyFilters parseB df region_col type_col date_col fs).rows.Sublist df.rows :=
  ⟨rfl, List.filter_sublist _⟩

/-- C2: the row-selection mask is the conjunction of exactly the
applicable predicates: each predicate padded to always-true when skipped
(absent column, empty/absent region selection, sentinel `"All"`,
absent/unparseable date range), and when no predicate is applicable the
FilteredView is the whole dataset. -/
theorem mask_and_of_applicable (parseB : Value → Option Int) (df : DataFrame)
    (region_col type_col date_col : Option String) (fs : FilterState) :
    (applyFilters parseB df region_col type_col date_col fs).rows =
      df.rows.filter (fun r =>
        regionPad df.cols region_col fs r &&
        typePad df.cols type_col fs r &&
        datePad parseB df.cols date_col fs r) ∧
    (∀ r, region_col = none → regionPad df.cols region_col fs r = true) ∧
    (∀ r, type_col = none → typePad df.cols type_col fs r = true) ∧
    (∀ r, fs.sel_type = .str "All" → typePad df.cols type_col fs r = true) ∧
    (∀ r, date_col = none → datePad parseB df.cols date_col fs r = true) ∧
    (noPredApplicable parseB region_col type_col date_col fs →
      applyFilters parseB df region_col type_col date_col fs = df) := by
  refine ⟨List.filter_congr (fun r _ => rowPred_eq_pads parseB df.cols region_col
    type_col date_col fs r), ?_, ?_, ?_, ?_, ?_⟩
  · intro r h
    subst h
    rcases h' : fs.sel_regions with _ | rs <;> simp [regionPad, h']
  · intro r h
    subst h
    simp [typePad]
  · intro r h
    rcases type_col with _ | tc <;> simp [typePad, h]
  · intro r h
    subst h
    rcases h' : fs.dr with _ | ⟨s, e⟩ <;> simp [datePad, h']
  · rintro ⟨hr, ht, hd⟩
    have hall : ∀ r, rowPred parseB df.cols region_col type_col date_col fs r = true := by
      intro r
    
      rw [rowPred_eq_pads]
      have h1 : regionPad df.cols region_col fs r = true := by
        rcases hr with h | h | h
        · simp [regionPad, h]
        · rcases region_col with _ | rc <;> simp [regionPad, h]
        · rcases h' : fs.sel_regions with _ | rs <;> simp [regionPad, h, h']
      have h2 : typePad df.cols type_col fs r = true := by
        rcases ht with h | h
        · simp [typePad, h]
        · rcases type_col with _ | tc <;> simp [typePad, h]
      have h3 : datePad parseB df.cols date_col fs r = true := by
        rcases hd with h | h | ⟨s, e, hse, h⟩
        · simp [datePad, h]
        · rcases h' : fs.dr with _ | ⟨s, e⟩ <;> simp [datePad, h, h']
        · rcases h with h | h <;> rcases date_col with _ | dc <;>
            simp [datePad, hse, h]
      simp [h1, h2, h3]
    rcases df with ⟨cols, rows⟩
    unfold applyFilters
    simp only [DataFrame.mk.injEq, true_and]
    rw [List.filter_congr (fun r _ => hall r), List.filter_true]

theorem mask_and_of_applicable_witness :
    noPredApplicable (fun _ => none) none none none ⟨none, .str "All", none⟩ ∧
    applyFilters (fun _ => none) ⟨["region"], [[.str "W"]]⟩ none none none
        ⟨none, .str "All", none⟩ = ⟨["region"], [[.str "W"]]⟩ :=
  ⟨⟨Or.inl rfl, Or.inl rfl, Or.inl rfl⟩,
   (mask_and_of_applicable (fun _ => none) ⟨["region"], [[.str "W"]]⟩ none none none
      ⟨none, .str "All", none⟩).2.2.2.2.2 ⟨Or.inl rfl, Or.inl rfl, Or.inl rfl⟩⟩

/-- C10: when the region column is resolved but the selected region set is
empty, the region predicate is skipped entirely, so the FilteredView is
the dataset filtered by the other predicates only. -/
theorem emptyRegionSelection_noop (parseB : Value → Option Int) (df : DataFrame)
    (rc : String) (type_col date_col : Option String) (fs : FilterState)
    (h : fs.sel_regions = some []) :
    applyFilters parseB df (some rc) type_col date_col fs =
      ⟨df.cols, df.rows.filter (fun r =>
        typePad df.cols type_col fs r && datePad parseB df.cols date_col fs r)⟩ := by
  unfold applyFilters
  simp only [DataFrame.mk.injEq, true_and]
  apply List.filter_congr
  intro r _
  rw [rowPred_eq_pads]
  simp [regionPad, h]

theorem emptyRegionSelection_noop_witness :
    applyFilters (fun _ => none) ⟨["region"], [[.str "W"], [.str "E"]]⟩ (some "region")
        none none ⟨some [], .str "All", none⟩ =
      ⟨["region"], [[.str "W"], [.str "E"]]⟩ := by
  rw [emptyRegionSelection_noop (fun _ => none) ⟨["region"], [[.str "W"], [.str "E"]]⟩
    "region" none none ⟨some [], .str "All", none⟩ rfl]
  decide

/-- C1 counterexample: with both bounds parseable and `s > e` (start 6,
end 4), the date predicate is not skipped: the single row with date 5 is
filtered out, whereas filtering by the other active predicates alone
keeps it. -/
theorem dateRange_failOpen_cex :
    dParse (Value.date 6) = some 6 ∧ dParse (Value.date 4) = some 4 ∧ (4 : Int) < 6 ∧
    (applyFilters dParse ⟨["Date"], [[.date 5]]⟩ none none (some "Date")
        ⟨none, .str "All", some (.date 6, .date 4)⟩).rows = [] ∧
    (applyFilters dParse ⟨["Date"], [[.date 5]]⟩ none none (some "Date")
        ⟨none, .str "All", none⟩).rows = [[.date 5]] := by
  decide

/-- C1 amended: if either bound of the date range fails to parse, the date
predicate is skipped entirely (the FilteredView equals filtering with no
date range, and evaluation is total); if both bounds parse with end <
start, the predicate is applied as-is and excludes every row. -/
theorem dateRange_failOpen_amended (parseB : Value → Option Int) (df : DataFrame)
    (region_col type_col : Option String) (dc : String) (fs : FilterState)
    (s e : Value) (hdr : fs.dr = some (s, e)) :
    (parseB s = none ∨ parseB e = none →
      applyFilters parseB df region_col type_col (some dc) fs =
        applyFilters parseB df region_col type_col (some dc)
          ⟨fs.sel_regions, fs.sel_type, none⟩) ∧
    (∀ si ei, parseB s = some si → parseB e = some ei → ei < si →
      (applyFilters parseB df region_col type_col (some dc) fs).rows = []) := by
  constructor
  · intro h
    unfold applyFilters
    simp only [DataFrame.mk.injEq, true_and]
    apply List.filter_congr
    intro r _
    rw [rowPred_eq_pads, rowPred_eq_pads]
    rcases h with h | h <;> simp [regionPad, typePad, datePad, hdr, h]
  · intro si ei hsi hei hlt
    unfold applyFilters
    simp only
    rw [List.filter_eq_nil_iff]
    intro r _
    rw [rowPred_eq_pads]
    simp only [datePad, hdr, hsi, hei, Bool.and_eq_true]
    rintro ⟨-, hge, hle⟩
    rcases hcell : getCell df.cols r dc with s' | q | d
    · rw [hcell] at hge; exact absurd hge (by simp [dateGe])
    · rw [hcell] at hge; exact absurd hge (by simp [dateGe])
    · rw [hcell] at hge hle
      simp only [dateGe, dateLe, decide_eq_true_eq] at hge hle
      omega
    · rw [hcell] at hge; exact absurd hge (by simp [dateGe])

theorem dateRange_failOpen_amended_witness :
    applyFilters dParse ⟨["Date"], [[.date 5]]⟩ none none (some "Date")
        ⟨none, .str "All", some (.str "x", .date 9)⟩ =
      applyFilters dParse ⟨["Date"], [[.date 5]]⟩ none none (some "Date")
        ⟨none, .str "All", none⟩ :=
  (dateRange_failOpen_amended dParse ⟨["Date"], [[.date 5]]⟩ none none "Date"
      ⟨none, .str "All", some (.str "x", .date 9)⟩ (.str "x") (.date 9) rfl).1
    (Or.inl rfl)

/-- C3: with a resolved date column and a valid parseable range
`[si, ei]`, every row of the FilteredView carries a date value inside the
range (rows whose date cell is missing are excluded). -/
theorem dateRange_within_bounds (parseB : Value → Option Int) (df : DataFrame)
    (region_col type_col : Option String) (dc : String) (fs : FilterState)
    (s e : Value) (si ei : Int) (hdr : fs.dr = some (s, e))
    (hs : parseB s = some si) (he : parseB e = some ei) (hle : si ≤ ei) :
    ∀ row ∈ (applyFilters parseB df region_col type_col (some dc) fs).rows,
      ∃ d, getCell df.cols row dc = .date d ∧ si ≤ d ∧ d ≤ ei := by
  intro row hrow
  unfold applyFilters at hrow
  simp only at hrow
  have hpred := (List.mem_filter.mp hrow).2
  rw [rowPred_eq_pads] at hpred
  simp only [datePad, hdr, hs, he, Bool.and_eq_true] at hpred
  obtain ⟨-, hge, hle'⟩ := hpred
  rcases hcell : getCell df.cols row dc with s' | q | d
  · rw [hcell] at hge; exact absurd hge (by simp [dateGe])
  · rw [hcell] at hge; exact absurd hge (by simp [dateGe])
  · rw [hcell] at hge hle'
    simp only [dateGe, dateLe, decide_eq_true_eq] at hge hle'
    exact ⟨d, rfl, hge, hle'⟩
  · rw [hcell] at hge; exact absurd hge (by simp [dateGe])

theorem dateRange_within_bounds_witness :
    ∃ d, getCell (DataFrame.mk ["Date"] [[.date 5]]).cols [Value.date 5] "Date" =
        .date d ∧ (4 : Int) ≤ d ∧ d ≤ 6 :=
  dateRange_within_bounds dParse ⟨["Date"], [[.date 5]]⟩ none none "Date"
    ⟨none, .str "All", some (.date 4, .date 6)⟩ (.date 4) (.date 6) 4 6 rfl rfl rfl
    (by decide) [Value.date 5] (by decide)

/-- C6: the loader trims every header, scans the trimmed headers
case-insensitively for one named "date", and when found coerces exactly
that column — each cell becomes a date when it parses and missing when it
does not, other columns are untouched — and the load is total: no row is
ever dropped, so a missing or malformed date column never fails the
load. -/
theorem load_data_spec (parse : Value → Option Int) (raw : DataFrame) :
    (load_data parse raw).cols = raw.cols.map (fun c => trimStr c) ∧
    (load_data parse raw).rows.length = raw.rows.length ∧
    ((raw.cols.map (fun c => trimStr c)).findIdx?
        (fun c => lowerStr c == "date") = none →
      (load_data parse raw).rows = raw.rows) ∧
    (∀ i, (raw.cols.map (fun c => trimStr c)).findIdx?
        (fun c => lowerStr c == "date") = some i →
      ∀ (k : Nat) (row : List Value), raw.rows[k]? = some row →
        ∃ row' : List Value, (load_data parse raw).rows[k]? = some row' ∧
          row'.length = row.length ∧
          (∀ j, j ≠ i → row'[j]? = row[j]?) ∧
          (∀ v, row[i]? = some v →
            row'[i]? = some (match parse v with
              | some d => Value.date d
              | none => Value.missing))) := by
  refine ⟨?_, ?_, ?_, ?_⟩
  · rcases h : (raw.cols.map (fun c => trimStr c)).findIdx?
      (fun c => lowerStr c == "date") with _ | i <;> simp [load_data, h]
  · rcases h : (raw.cols.map (fun c => trimStr c)).findIdx?
      (fun c => lowerStr c == "date") with _ | i <;> simp [load_data, h]
  · intro h
    simp [load_data, h]
  · intro i hi k row hrow
    refine ⟨row.mapIdx (fun j v =>
      if j = i then
        match parse v with
        | some d => Value.date d
        | none => Value.missing
      else v), ?_, List.length_mapIdx, ?_, ?_⟩
    · simp [load_data, hi, List.getElem?_map, hrow]
    · intro j hj
      rw [List.getElem?_mapIdx]
      rcases h' : row[j]? with _ | v
      · rfl
      · simp [hj]
    · intro v hv
      rw [List.getElem?_mapIdx, hv]
      simp

theorem load_data_spec_witness :
    ∃ row' : List Value,
      (load_data wParse ⟨[" Date ", "x"], [[.str "d1", .num 1]]⟩).rows[0]? =
        some row' ∧
      row'.length = [Value.str "d1", Value.num 1].length ∧
      (∀ j, j ≠ 0 → row'[j]? = [Value.str "d1", Value.num 1][j]?) ∧
      (∀ v, [Value.str "d1", Value.num 1][0]? = some v →
        row'[0]? = some (match wParse v with
          | some d => Value.date d
          | none => Value.missing)) :=
  (load_data_spec wParse ⟨[" Date ", "x"], [[.str "d1", .num 1]]⟩).2.2.2 0 (by decide)
    0 [Value.str "d1", Value.num 1] rfl

/-- C7: the time-series aggregate drops rows missing the date or the
average price, groups the survivors by exact date, takes the per-group
mean of the price, and lists (date, mean) pairs with distinct dates sorted
ascending; its keys are exactly the surviving dates; it is empty when
either column is unresolved or when no row survives the drop. -/
theorem timeSeries_spec (df : DataFrame) (dc pc : String) :
    (∀ oc, timeSeries df none oc = [] ∧ timeSeries df oc none = []) ∧
    (dropna df [dc, pc]).rows = df.rows.filter (fun r =>
      decide (getCell df.cols r dc ≠ Value.missing) &&
      decide (getCell df.cols r pc ≠ Value.missing)) ∧
    List.Sorted (· ≤ ·) ((timeSeries df (some dc) (some pc)).map Prod.fst) ∧
    ((timeSeries df (some dc) (some pc)).map Prod.fst).Nodup ∧
    (∀ p ∈ timeSeries df (some dc) (some pc),
      p.1 ∈ colDates (dropna df [dc, pc]) dc ∧
      p.2 = listMean (groupVals (dropna df [dc, pc]) dc (.date p.1) pc)) ∧
    (∀ d ∈ colDates (dropna df [dc, pc]) dc,
      d ∈ (timeSeries df (some dc) (some pc)).map Prod.fst) ∧
    ((dropna df [dc, pc]).rows = [] → timeSeries df (some dc) (some pc) = []) := by
  have hmap : (timeSeries df (some dc) (some pc)).map Prod.fst =
      (colDates (dropna df [dc, pc]) dc).dedup.insertionSort (· ≤ ·) := by
    simp [timeSeries, List.map_map, Function.comp_def]
  refine ⟨fun oc => ?_, ?_, ?_, ?_, ?_, ?_, ?_⟩
  · rcases oc with _ | c <;> exact ⟨rfl, rfl⟩
  · unfold dropna
    simp only
    apply List.filter_congr
    intro r _
    simp [notNa]
  · rw [hmap]; exact List.sorted_insertionSort _ _
  · rw [hmap]
    exact (List.perm_insertionSort _ _).symm.nodup (List.nodup_dedup _)
  · intro p hp
    simp only [timeSeries] at hp
    obtain ⟨d, hd, rfl⟩ := List.mem_map.mp hp
    exact ⟨List.mem_dedup.mp ((List.perm_insertionSort _ _).mem_iff.mp hd), rfl⟩
  · intro d hd
    rw [hmap]
    exact (List.perm_insertionSort _ _).mem_iff.mpr (List.mem_dedup.mpr hd)
  · intro h
    simp only [timeSeries, colDates, h, List.filterMap_nil]
    rfl

theorem timeSeries_spec_witness :
    (1 : Int) ∈ colDates (dropna aggDf ["Date", "AveragePrice"]) "Date" ∧
    listMean (groupVals (dropna aggDf ["Date", "AveragePrice"]) "Date" (.date 1)
        "AveragePrice") =
      listMean (groupVals (dropna aggDf ["Date", "AveragePrice"]) "Date" (.date 1)
        "AveragePrice") :=
  (timeSeries_spec aggDf "Date" "AveragePrice").2.2.2.2.1
    (1, listMean (groupVals (dropna aggDf ["Date", "AveragePrice"]) "Date" (.date 1)
      "AveragePrice"))
    (List.Mem.head _)

/-- C8: the region-volume aggregate groups the rows by region (missing
regions form no group, keys are the distinct region values present), sums
the volume per group, sorts descending by summed volume and keeps at most
the top 20 with distinct keys — and these really are the top 20: every
group left out has a summed volume no larger than that of any retained
pair; it is empty when either column is unresolved. -/
theorem regionVolume_spec (df : DataFrame) (rc vc : String) :
    (∀ oc, regionVolume df none oc = [] ∧ regionVolume df oc none = []) ∧
    List.Sorted volDesc (regionVolume df (some rc) (some vc)) ∧
    (regionVolume df (some rc) (some vc)).length = min 20 (groupKeys df rc).length ∧
    (∀ p ∈ regionVolume df (some rc) (some vc),
      p.1 ∈ groupKeys df rc ∧ p.2 = (groupVals df rc p.1 vc).sum) ∧
    ((regionVolume df (some rc) (some vc)).map Prod.fst).Nodup ∧
    (groupKeys df rc).Nodup ∧
    (∀ k, k ∈ groupKeys df rc ↔
      k ≠ .missing ∧ ∃ r ∈ df.rows, getCell df.cols r rc = k) ∧
    (∀ p ∈ regionVolume df (some rc) (some vc), ∀ k ∈ groupKeys df rc,
      k ∉ (regionVolume df (some rc) (some vc)).map Prod.fst →
      (groupVals df rc k vc).sum ≤ p.2) := by
  have hkeys : ((groupKeys df rc).map
      (fun k => (k, (groupVals df rc k vc).sum))).map Prod.fst = groupKeys df rc := by
    simp [List.map_map, Function.comp_def]
  refine ⟨fun oc => ?_, ?_, ?_, ?_, ?_, List.nodup_dedup _, ?_, ?_⟩
  · rcases oc with _ | c <;> exact ⟨rfl, rfl⟩
  · simp only [regionVolume]
    exact List.Pairwise.sublist (List.take_sublist _ _) (List.sorted_insertionSort _ _)
  · simp [regionVolume, List.length_take, (List.perm_insertionSort volDesc _).length_eq]
  · intro p hp
    simp only [regionVolume] at hp
    have hp' := (List.perm_insertionSort volDesc _).mem_iff.mp
      (List.Sublist.mem hp (List.take_sublist _ _))
    obtain ⟨k, hk, rfl⟩ := List.mem_map.mp hp'
    exact ⟨hk, rfl⟩
  · have hperm := (List.perm_insertionSort volDesc
      ((groupKeys df rc).map (fun k => (k, (groupVals df rc k vc).sum)))).map Prod.fst
    rw [hkeys] at hperm
    have hnd : ((List.insertionSort volDesc ((groupKeys df rc).map
        (fun k => (k, (groupVals df rc k vc).sum)))).map Prod.fst).Nodup :=
      hperm.symm.nodup (List.nodup_dedup _)
    simp only [regionVolume, ← List.map_take]
    exact List.Sublist.nodup ((List.take_sublist _ _).map Prod.fst) hnd
  · intro k
    simp only [groupKeys, List.mem_dedup, List.mem_filter, List.mem_map]
    constructor
    · rintro ⟨⟨r, hr, rfl⟩, hne⟩
      exact ⟨by simpa using hne, r, hr, rfl⟩
    · rintro ⟨hne, r, hr, rfl⟩
      exact ⟨⟨r, hr, rfl⟩, by simpa using hne⟩
  · intro p hp k hk hknot
    simp only [regionVolume] at hp hknot
    have hq : (k, (groupVals df rc k vc).sum) ∈ List.insertionSort volDesc
        ((groupKeys df rc).map (fun k => (k, (groupVals df rc k vc).sum))) :=
      (List.perm_insertionSort volDesc _).mem_iff.mpr
        (List.mem_map_of_mem _ hk)
    have hqnot : (k, (groupVals df rc k vc).sum) ∉ (List.insertionSort volDesc
        ((groupKeys df rc).map (fun k => (k, (groupVals df rc k vc).sum)))).take 20 := by
      intro hmem
      exact hknot (List.mem_map_of_mem Prod.fst hmem)
    have hqdrop : (k, (groupVals df rc k vc).sum) ∈ (List.insertionSort volDesc
        ((groupKeys df rc).map (fun k => (k, (groupVals df rc k vc).sum)))).drop 20 := by
      have hq2 := hq
      rw [← List.take_append_drop 20 (List.insertionSort volDesc
        ((groupKeys df rc).map (fun k => (k, (groupVals df rc k vc).sum))))] at hq2
      rcases List.mem_append.mp hq2 with h | h
      · exact absurd h hqnot
      · exact h
    have hsplitted : List.Pairwise volDesc ((List.insertionSort volDesc
        ((groupKeys df rc).map (fun k => (k, (groupVals df rc k vc).sum)))).take 20 ++
        (List.insertionSort volDesc
        ((groupKeys df rc).map (fun k => (k, (groupVals df rc k vc).sum)))).drop 20) := by
      rw [List.take_append_drop]
      exact List.sorted_insertionSort _ _
    exact (List.pairwise_append.mp hsplitted).2.2 p hp _ hqdrop

theorem regionVolume_spec_witness :
    Value.str "West" ∈ groupKeys volDf "region" ∧
    (groupVals volDf "region" (.str "West") "Total Volume").sum =
      (groupVals volDf "region" (.str "West") "Total Volume").sum :=
  (regionVolume_spec volDf "region" "Total Volume").2.2.2.1
    (.str "West", (groupVals volDf "region" (.str "West") "Total Volume").sum)
    (List.Mem.head _)

theorem intercalate_two {α : Type} (s : List α) (a b : List α) (t : List (List α)) :
    List.intercalate s (a :: b :: t) = a ++ s ++ List.intercalate s (b :: t) := by
  simp [List.intercalate, List.intersperse]

theorem splitOnChar_ne_nil (c : Char) (l : List Char) : splitOnChar c l ≠ [] := by
  induction l with
  | nil => simp [splitOnChar]
  | cons x xs ih =>
    simp only [splitOnChar]
    rcases h : splitOnChar c xs with _ | ⟨hd, tl⟩
    · simp
    · by_cases hx : x = c <;> simp [hx]

theorem splitOnChar_of_not_mem (c : Char) (l : List Char) (h : c ∉ l) :
    splitOnChar c l = [l] := by
  induction l with
  | nil => rfl
  | cons x xs ih =>
    have hx : x ≠ c := fun e => h (e ▸ List.mem_cons_self x xs)
    have hxs : c ∉ xs := fun e => h (List.mem_cons_of_mem _ e)
    simp only [splitOnChar, ih hxs]
    simp [hx]

theorem splitOnChar_append_cons (c : Char) (p r : List Char) (hp : c ∉ p) :
    splitOnChar c (p ++ c :: r) = p :: splitOnChar c r := by
  induction p with
  | nil =>
    simp only [List.nil_append, splitOnChar]
    rcases h : splitOnChar c r with _ | ⟨hd, tl⟩
    · exact absurd h (splitOnChar_ne_nil c r)
    · simp
  | cons x xs ih =>
    have hx : x ≠ c := fun e => hp (e ▸ List.mem_cons_self x xs)
    have hxs : c ∉ xs := fun e => hp (List.mem_cons_of_mem _ e)
    show (match splitOnChar c (xs ++ c :: r) with
      | [] => [[]]
      | h :: t => if x = c then [] :: h :: t else (x :: h) :: t) =
      (x :: xs) :: splitOnChar c r
    rw [ih hxs]
    simp [hx]

theorem splitOnChar_intercalate (c : Char) (parts : List (List Char))
    (hne : parts ≠ []) (h : ∀ p ∈ parts, c ∉ p) :
    splitOnChar c (List.intercalate [c] parts) = parts := by
  induction parts with
  | nil => exact absurd rfl hne
  | cons p ps ih =>
    rcases ps with _ | ⟨q, t⟩
    · have e : List.intercalate [c] [p] = p := by simp [List.intercalate]
      rw [e, splitOnChar_of_not_mem c p (h p (by simp))]
    · rw [intercalate_two]
      have e : p ++ [c] ++ List.intercalate [c] (q :: t) =
          p ++ c :: List.intercalate [c] (q :: t) := by simp
      rw [e, splitOnChar_append_cons c p _ (h p (by simp)),
        ih (by simp) (fun x hx => h x (List.mem_cons_of_mem _ hx))]

theorem not_mem_intercalate (x c : Char) (parts : List (List Char))
    (hxc : x ≠ c) (h : ∀ p ∈ parts, x ∉ p) : x ∉ List.intercalate [c] parts := by
  induction parts with
  | nil => simp [List.intercalate]
  | cons p ps ih =>
    rcases ps with _ | ⟨q, t⟩
    · simpa [List.intercalate] using h p (by simp)
    · rw [intercalate_two]
      intro hmem
      rcases List.mem_append.mp hmem with h1 | h1
      · rcases List.mem_append.mp h1 with h2 | h2
        · exact h p (by simp) h2
        · simp at h2
          exact hxc h2
      · exact ih (fun y hy => h y (List.mem_cons_of_mem _ hy)) h1

theorem intercalate_concat_nil (c : Char) (parts : List (List Char))
    (hne : parts ≠ []) :
    List.intercalate [c] (parts ++ [[]]) = List.intercalate [c] parts ++ [c] := by
  induction parts with
  | nil => exact absurd rfl hne
  | cons p ps ih =>
    rcases ps with _ | ⟨q, t⟩
    · simp [List.intercalate, intercalate_two]
    · have ih' := ih (by simp)
      rw [List.cons_append] at ih'
      rw [List.cons_append, List.cons_append, intercalate_two, intercalate_two, ih']
      simp

/-- C9: exporting the FilteredView with `to_csv_bytes` and re-reading the
text with the loader reproduces the frame exactly, provided the frame is a
loader-produced one (headers nonempty, already trimmed, free of
separators), rendered cells contain no separator characters, and pandas'
cell formatting and inference invert each other on the cells present —
with the date column reproduced through the loader's date coercion
(`modulo date formatting`). -/
theorem csv_roundtrip (render : Value → List Char) (infer : List Char → Value)
    (parse : Value → Option Int) (fv : DataFrame)
    (hne : fv.cols ≠ [])
    (hcols : ∀ c ∈ fv.cols, trimStr c = c ∧ ',' ∉ c.data ∧ '\x0a' ∉ c.data)
    (hlen : ∀ row ∈ fv.rows, row.length = fv.cols.length)
    (hcells : ∀ row ∈ fv.rows, ∀ v ∈ row, ',' ∉ render v ∧ '\x0a' ∉ render v)
    (hvals : ∀ row ∈ fv.rows, ∀ (j : Nat) (v : Value), row[j]? = some v →
      (fv.cols.findIdx? (fun c => lowerStr c == "date") = some j →
        (match parse (infer (render v)) with
         | some d => Value.date d
         | none => Value.missing) = v) ∧
      (fv.cols.findIdx? (fun c => lowerStr c == "date") ≠ some j →
        infer (render v) = v)) :
    load_data parse (read_csv infer (to_csv_bytes render fv)) = fv := by
  obtain ⟨cols, rows⟩ := fv
  simp only at hne hcols hlen hcells hvals
  have hrowne : ∀ r ∈ rows, r ≠ [] := by
    intro r hr e
    apply hne
    have hl := hlen r hr
    rw [e] at hl
    exact List.length_eq_zero.mp hl.symm
  have hsplit : splitOnChar '\x0a' (to_csv_bytes render ⟨cols, rows⟩) =
      (csvLine (cols.map String.toList) ::
        rows.map (fun r => csvLine (r.map render))) ++ [[]] := by
    show splitOnChar '\x0a'
      (List.intercalate ['\x0a'] (csvLine (cols.map String.toList) ::
        rows.map (fun r => csvLine (r.map render))) ++ ['\x0a']) = _
    rw [← intercalate_concat_nil '\x0a' _ (by simp)]
    apply splitOnChar_intercalate _ _ (by simp)
    intro p hp
    rcases List.mem_append.mp hp with hp | hp
    · rcases List.mem_cons.mp hp with hp | hp
      · subst hp
        apply not_mem_intercalate _ _ _ (by decide)
        intro q hq
        obtain ⟨c, hc, rfl⟩ := List.mem_map.mp hq
        exact (hcols c hc).2.2
      · obtain ⟨r, hr, rfl⟩ := List.mem_map.mp hp
        apply not_mem_intercalate _ _ _ (by decide)
        intro q hq
        obtain ⟨v, hv, rfl⟩ := List.mem_map.mp hq
        exact (hcells r hr v hv).2
    · simp at hp
      subst hp
      simp
  have h2 : read_csv infer (to_csv_bytes render ⟨cols, rows⟩) =
      ⟨cols, rows.map (fun r => r.map (fun v => infer (render v)))⟩ := by
    simp only [read_csv, hsplit, List.getLast?_concat, List.dropLast_concat,
      if_pos]
    simp only [DataFrame.mk.injEq]
    constructor
    · rw [csvLine, splitOnChar_intercalate ',' _ (by simp [hne]) ?hdr]
      case hdr =>
        intro q hq
        obtain ⟨c, hc, rfl⟩ := List.mem_map.mp hq
        exact (hcols c hc).2.1
      rw [List.map_map]
      have e : String.mk ∘ String.toList = id := rfl
      rw [e, List.map_id]
    · rw [List.map_map]
      apply List.map_congr_left
      intro r hr
      show (splitOnChar ',' (csvLine (r.map render))).map infer = _
      rw [csvLine, splitOnChar_intercalate ',' _ (by simp [hrowne r hr]) ?cells]
      case cells =>
        intro q hq
        obtain ⟨v, hv, rfl⟩ := List.mem_map.mp hq
        exact (hcells r hr v hv).1
      rw [List.map_map]
      rfl
  rw [h2]
  have htrim : cols.map (fun c => trimStr c) = cols := by
    have e := @List.map_congr_left _ cols _ (fun c => trimStr c) id
      (fun c hc => (hcols c hc).1)
    rw [e, List.map_id]
  simp only [load_data, htrim]
  rcases h : cols.findIdx? (fun c => lowerStr c == "date") with _ | i
  · simp only [DataFrame.mk.injEq, true_and]
    have e : ∀ r ∈ rows, r.map (fun v => infer (render v)) = id r := by
      intro r hr
      have e2 := @List.map_congr_left _ r _ (fun v => infer (render v)) id ?_
      · rw [e2, List.map_id]; rfl
      · intro v hv
        obtain ⟨j, hj⟩ := List.mem_iff_getElem?.mp hv
        exact (hvals r hr j v hj).2 (by rw [h]; simp)
    rw [List.map_congr_left e, List.map_id]
  · simp only [DataFrame.mk.injEq, true_and, List.map_map]
    have e : ∀ r ∈ rows,
        ((r.map (fun v => infer (render v))).mapIdx (fun j v =>
          if j = i then
            match parse v with
            | some d => Value.date d
            | none => Value.missing
          else v)) = id r := by
      intro r hr
      apply List.ext_getElem?
      intro j
      rw [List.getElem?_mapIdx, List.getElem?_map]
      rcases hj : r[j]? with _ | v
      · simp [hj]
      · simp only [Option.map_some']
        by_cases hji : j = i
        · subst hji
          simp only [if_pos rfl]
          rw [(hvals r hr j v hj).1 h]
          simp [hj]
        · simp only [if_neg hji]
          rw [(hvals r hr j v hj).2 ?_]
          · simp [hj]
          · rw [h]
            intro e2
            exact hji (Option.some.inj e2).symm
    exact (List.map_congr_left e).trans (List.map_id rows)

theorem csv_roundtrip_witness :
    load_data wDateParse (read_csv wInfer (to_csv_bytes wRender wDf)) = wDf :=
  csv_roundtrip wRender wInfer wDateParse wDf (by decide) (by decide) (by decide)
    (by decide)
    (by
      intro row hrow j v hj
      have hrow' : row = [Value.date 3, Value.str "West"] := by
        rcases List.mem_cons.mp hrow with e | e
        · exact e
        · simp at e
      subst hrow'
      have hj2 : j < 2 := by
        by_contra h2
        rw [List.getElem?_eq_none (by simpa using h2)] at hj
        exact Option.noConfusion hj
      have hc : wDf.cols.findIdx? (fun c => lowerStr c == "date") = some 0 := by
        decide
      constructor
      · intro hfind
        rw [hc] at hfind
        have hj0 : j = 0 := (Option.some.inj hfind).symm
        subst hj0
        rw [List.getElem?_cons_zero] at hj
        cases Option.some.inj hj
        decide
      · intro hfind
        rw [hc] at hfind
        have hj0 : j ≠ 0 := fun e => hfind (by rw [e])
        have hj1 : j = 1 := by omega
        subst hj1
        rw [show ([Value.date 3, Value.str "West"])[1]? =
          some (Value.str "West") from rfl] at hj
        cases Option.some.inj hj
        decide)
